import Mathlib

/-!
Verification of the `neurotic` feed-forward neural-network engine
(`src/neuron.c`) against its natural-language specification.

The C code is shallowly embedded: C doubles become real numbers, the
dense-matrix collaborator (`matrix.h`, external per spec §6) is modelled
from its contract, file streams become lists of tagged words, and the
random sampler (`random.h`, external per spec §6) is an explicit
parameter threading its seed state.
-/

/- ## Matrix collaborator

Modelled from the spec: the dense 2D double-matrix collaborator of §6
("construct, element access, column extract/copy/set, deep copy,
elementwise map, product, sub-block extraction, column interchange").
A matrix carries its dimensions and a total entry function; only
entries with `i < nrows`, `j < ncols` are observable. -/
structure matrix_double where
  nrows : ℕ
  ncols : ℕ
  data : ℕ → ℕ → ℝ

/-- Modelled from the spec: `construct(rows, cols)` — fresh storage,
entries taken as the allocation default 0. -/
def alloc_matrix_double (r c : ℕ) : matrix_double :=
  ⟨r, c, fun _ _ => 0⟩

/-- Modelled from the spec: deep copy of a matrix. -/
def copy_matrix_double (m : matrix_double) : matrix_double :=
  ⟨m.nrows, m.ncols, m.data⟩

/-- Modelled from the spec: write the array `v` into column `c`
(rows `0..nrows-1`). -/
def set_col_matrix_double (m : matrix_double) (v : ℕ → ℝ) (c : ℕ) : matrix_double :=
  ⟨m.nrows, m.ncols, fun i j => if j = c ∧ i < m.nrows then v i else m.data i j⟩

/-- Modelled from the spec: read column `c` out into an array
(rows `0..nrows-1`; other positions of the output buffer are
modelled as 0). -/
def copy_col_matrix_double (m : matrix_double) (c : ℕ) : ℕ → ℝ :=
  fun i => if i < m.nrows then m.data i c else 0

/-- Modelled from the spec: matrix product. -/
def matrix_product_matrix_double (a b : matrix_double) : matrix_double :=
  ⟨a.nrows, b.ncols, fun i j => ∑ k ∈ Finset.range a.ncols, a.data i k * b.data k j⟩

/-- Modelled from the spec: in-place interchange of columns `a` and `b`. -/
def interchange_cols_matrix_double (m : matrix_double) (a b : ℕ) : matrix_double :=
  ⟨m.nrows, m.ncols, fun i j =>
    if j = a then m.data i b else if j = b then m.data i a else m.data i j⟩

/-- Modelled from the spec: sub-block extraction by a
(top-left, bottom-right) coordinate pair, rows `[row_a, row_b)`,
columns `[col_a, col_b)`. -/
def extract_section_matrix_double (m : matrix_double) (row_a col_a row_b col_b : ℕ) : matrix_double :=
  ⟨row_b - row_a, col_b - col_a, fun i j => m.data (row_a + i) (col_a + j)⟩

/- ## Network data model (src/neuron.c) -/

/-- `struct network` of `neuron.h`: layer count, layer-size array,
one weight matrix and one bias column vector per non-input layer. -/
structure network where
  n_layers : ℕ
  net_structure : ℕ → ℕ
  weights : ℕ → matrix_double
  biases : ℕ → matrix_double

/-- `create_network` (src/neuron.c:18): copies the first `n_layers`
entries of the size schedule and allocates, for `i < n_layers - 1`,
`biases[i]` of shape `net_structure[i+1] × 1` and `weights[i]` of shape
`net_structure[i+1] × net_structure[i]`. No validation is performed. -/
def create_network (n_layers : ℕ) (net_structure : ℕ → ℕ) : network :=
  { n_layers := n_layers
    net_structure := fun i => if i < n_layers then net_structure i else 0
    biases := fun i => if i < n_layers - 1 then
        alloc_matrix_double (net_structure (i+1)) 1
      else alloc_matrix_double 0 0
    weights := fun i => if i < n_layers - 1 then
        alloc_matrix_double (net_structure (i+1)) (net_structure i)
      else alloc_matrix_double 0 0 }

/-- The data-model shape invariant of spec §3, including `L ≥ 2`. -/
def wellFormed (net : network) : Prop :=
  2 ≤ net.n_layers ∧
  ∀ l, l < net.n_layers - 1 →
    (net.weights l).nrows = net.net_structure (l+1) ∧
    (net.weights l).ncols = net.net_structure l ∧
    (net.biases l).nrows = net.net_structure (l+1) ∧
    (net.biases l).ncols = 1

/-- Observable equality of two networks: same layer count, same layer
sizes, same dimensions and same in-range entries of every weight matrix
and bias vector. -/
def netEq (a b : network) : Prop :=
  a.n_layers = b.n_layers ∧
  (∀ i, i < a.n_layers → a.net_structure i = b.net_structure i) ∧
  ∀ l, l < a.n_layers - 1 →
    (a.weights l).nrows = (b.weights l).nrows ∧
    (a.weights l).ncols = (b.weights l).ncols ∧
    (a.biases l).nrows = (b.biases l).nrows ∧
    (a.biases l).ncols = (b.biases l).ncols ∧
    (∀ i j, i < (a.weights l).nrows → j < (a.weights l).ncols →
      (a.weights l).data i j = (b.weights l).data i j) ∧
    (∀ i, i < (a.biases l).nrows → (a.biases l).data i 0 = (b.biases l).data i 0)

/- ## Sigmoid and forward pass (src/neuron.c:89-109, 303-317) -/

/-- `sigma` (src/neuron.c:314): `s(x) = 1 / (1 + exp(-x))`. -/
noncomputable def sigma (x : ℝ) : ℝ := 1 / (1 + Real.exp (-x))

/-- `vectorized_sigma` (src/neuron.c:303): applies `sigma` to every
entry (`i < nrows`, `j < ncols`) of the matrix. -/
noncomputable def vectorized_sigma (m : matrix_double) : matrix_double :=
  ⟨m.nrows, m.ncols, fun i j =>
    if i < m.nrows ∧ j < m.ncols then sigma (m.data i j) else m.data i j⟩

/-- The `for (l = 1; l < net.n_layers; l++)` loop of `feedforward`
(src/neuron.c:96-103): here `l` is the weight index (`l - 1` of the C loop) and the second argument counts the remaining iterations. -/
noncomputable def feedforward_loop (net : network) : matrix_double → ℕ → ℕ → matrix_double
  | activation, _, 0 => activation
  | activation, l, steps+1 =>
      feedforward_loop net
        (vectorized_sigma (copy_matrix_double
          (matrix_product_matrix_double (net.weights l) activation)))
        (l+1) steps

/-- `feedforward` (src/neuron.c:89): fill a `net_structure[0] × 1`
column with the input, run the layer loop `n_layers - 1` times, copy
column 0 of the final activation into the output buffer. -/
noncomputable def feedforward (net : network) (input : ℕ → ℝ) : ℕ → ℝ :=
  copy_col_matrix_double
    (feedforward_loop net
      (set_col_matrix_double (alloc_matrix_double (net.net_structure 0) 1) input 0)
      0 (net.n_layers - 1))
    0

/-- Written from the words of the spec (§4.2), for comparison with
`feedforward`: `a₀ = input` as a column vector; for `l = 1..L-1`,
`z_l = weights[l-1] · a_{l-1}` and `a_l = sigmoid(z_l)` elementwise.
No bias vector appears. -/
noncomputable def specActivation (net : network) (input : ℕ → ℝ) : ℕ → matrix_double
  | 0 => ⟨net.net_structure 0, 1, fun i j =>
      if j = 0 ∧ i < net.net_structure 0 then input i else 0⟩
  | l+1 => vectorized_sigma
      (matrix_product_matrix_double (net.weights l) (specActivation net input l))

/- ## Binary persistence (src/neuron.c:114-163)

A file is modelled as a list of tagged words: each `fwrite`/`fread` of
one C `int` or one `double` moves one word. An `fread` past the end of
the stream fails silently in the source (its result is ignored), leaving
the destination with its previous value; the model returns the
allocation default 0, which is exactly the previous value of every
destination `load_network` reads into. -/
inductive Word where
  | i : ℤ → Word
  | d : ℝ → Word

/-- One `fread` of an `int`. -/
def readInt : List Word → ℤ × List Word
  | Word.i z :: s => (z, s)
  | Word.d _ :: s => (0, s)
  | [] => (0, [])

/-- `fread` of `n` consecutive `int`s. -/
def readInts : ℕ → List Word → List ℤ × List Word
  | 0, s => ([], s)
  | n+1, s =>
      let p := readInt s
      let q := readInts n p.2
      (p.1 :: q.1, q.2)

/-- One `fread` of a `double`. -/
def readDbl : List Word → ℝ × List Word
  | Word.d x :: s => (x, s)
  | Word.i _ :: s => (0, s)
  | [] => (0, [])

/-- `fread` of `n` consecutive `double`s. -/
def readDbls : ℕ → List Word → List ℝ × List Word
  | 0, s => ([], s)
  | n+1, s =>
      let p := readDbl s
      let q := readDbls n p.2
      (p.1 :: q.1, q.2)

/-- Overwrite entry `(i, j)` of a matrix. -/
def setEntry (m : matrix_double) (i j : ℕ) (x : ℝ) : matrix_double :=
  ⟨m.nrows, m.ncols, fun i' j' => if i' = i ∧ j' = j then x else m.data i' j'⟩

/-- Overwrite row `i` of a matrix with the first `ws.length` values. -/
def setRow (m : matrix_double) (i : ℕ) (ws : List ℝ) : matrix_double :=
  ⟨m.nrows, m.ncols, fun i' j =>
    if i' = i ∧ j < ws.length then ws.getD j 0 else m.data i' j⟩

/-- Overwrite bias entry `i` of layer `l` (`net.biases[l].data[i][0]`). -/
def setBias (net : network) (l i : ℕ) (x : ℝ) : network :=
  { net with biases := fun l' =>
      if l' = l then setEntry (net.biases l) i 0 x else net.biases l' }

/-- Overwrite weight row `i` of layer `l` (`net.weights[l].data[i][*]`). -/
def setWeightRow (net : network) (l i : ℕ) (ws : List ℝ) : network :=
  { net with weights := fun l' =>
      if l' = l then setRow (net.weights l) i ws else net.weights l' }

/-- The per-neuron block `save_network` writes (src/neuron.c:128-132):
the bias of neuron `i` of layer `l+1` followed by its
`net_structure[l]` incoming weights. -/
def saveNeuronRow (net : network) (l i : ℕ) : List Word :=
  Word.d ((net.biases l).data i 0) ::
    (List.range (net.net_structure l)).map (fun j => Word.d ((net.weights l).data i j))

/-- The `for (i = 0; i < n_neurons; i++)` loop of `save_network`,
starting at neuron `i` with `count` neurons left. -/
def saveNeurons (net : network) (l : ℕ) : ℕ → ℕ → List Word
  | _, 0 => []
  | i, c+1 => saveNeuronRow net l i ++ saveNeurons net l (i+1) c

/-- The `for (l = 0; l < net.n_layers-1; l++)` loop of `save_network`,
starting at layer `l` with `count` layers left. -/
def saveLayers (net : network) : ℕ → ℕ → List Word
  | _, 0 => []
  | l, c+1 => saveNeurons net l 0 (net.net_structure (l+1)) ++ saveLayers net (l+1) c

/-- `save_network` (src/neuron.c:114): layer count, then the layer-size
array, then for each layer, per neuron, the bias followed by the incoming
weights. -/
def save_network (net : network) : List Word :=
  Word.i (net.n_layers : ℤ) ::
    (List.range net.n_layers).map (fun idx => Word.i (net.net_structure idx : ℤ)) ++
    saveLayers net 0 (net.n_layers - 1)

/-- The `for (i = 0; i < n_neurons; i++)` loop of `load_network`
(src/neuron.c:153-158): read the bias, then the `net_structure[l]`
weights of each neuron in turn. -/
def loadNeurons (l : ℕ) : network → ℕ → ℕ → List Word → network × List Word
  | net, _, 0, s => (net, s)
  | net, i, c+1, s =>
      let pb := readDbl s
      let net1 := setBias net l i pb.1
      let pw := readDbls (net.net_structure l) pb.2
      loadNeurons l (setWeightRow net1 l i pw.1) (i+1) c pw.2

/-- The `for (l = 0; l < n_layers-1; l++)` loop of `load_network`. -/
def loadLayers : network → ℕ → ℕ → List Word → network × List Word
  | net, _, 0, s => (net, s)
  | net, l, c+1, s =>
      let p := loadNeurons l net 0 (net.net_structure (l+1)) s
      loadLayers p.1 (l+1) c p.2

/-- `load_network` (src/neuron.c:140): read the layer count, read the
layer-size array, build the network with `create_network`, then read
every bias and weight back in the order `save_network` wrote them. No
`fread` result is checked, so a short stream silently leaves the
remaining parameters at their allocation defaults. -/
def load_network (s : List Word) : network :=
  let pn := readInt s
  let L := pn.1.toNat
  let ps := readInts L pn.2
  (loadLayers (create_network L (fun idx => (ps.1.getD idx 0).toNat)) 0 (L - 1) ps.2).1

/- ## Shuffling (src/neuron.c:289-297) -/

/-- Modelled from the spec: the sampler contract `uniformInt(seed, limit)`
returns an integer in `[0, limit]` (`rand_lim` of `random.h` is not in
the sources). The raw draw stream `r` is abstract; draw `t` is reduced
into range. -/
def rand_lim (r : ℕ → ℕ) (t : ℕ) (limit : ℕ) : ℕ := r t % (limit + 1)

/-- The `for (i = data.ncols-1; i >= 1; i--)` Fisher-Yates loop of
`shuffle_data` (src/neuron.c:292-296): at loop value `i+1`, draw
`j ∈ [0, i+1]` and swap columns `i+1` and `j` of both matrices. `t`
counts the draws already consumed. -/
def shuffleLoop (r : ℕ → ℕ) : ℕ → matrix_double → matrix_double → ℕ → matrix_double × matrix_double
  | _, d, lb, 0 => (d, lb)
  | t, d, lb, i+1 =>
      shuffleLoop r (t+1)
        (interchange_cols_matrix_double d (i+1) (rand_lim r t (i+1)))
        (interchange_cols_matrix_double lb (i+1) (rand_lim r t (i+1)))
        i

/-- `shuffle_data` (src/neuron.c:289): one Fisher-Yates pass over the
columns, driving both matrices with the same draws. -/
def shuffle_data (r : ℕ → ℕ) (data labels : matrix_double) : matrix_double × matrix_double :=
  shuffleLoop r 0 data labels (data.ncols - 1)

/- ## Backpropagation and SGD (src/neuron.c:177-281) -/

/-- `calculate_costs` (src/neuron.c:276): the cost-computation stub —
it ignores its arguments and returns an empty `0 × 0` matrix. -/
def calculate_costs (labels : matrix_double) (outputs : ℕ → matrix_double) : matrix_double :=
  alloc_matrix_double 0 0

/-- `activs[l][i]` of `network_backprop` (src/neuron.c:236-252): the
activation column of layer `l` for training column `i`; layer 0 is the
training input column, each later layer is the sigmoid of the weighted
input. -/
noncomputable def bpActiv (net : network) (training_data : matrix_double) (i : ℕ) : ℕ → matrix_double
  | 0 => set_col_matrix_double (alloc_matrix_double training_data.nrows 1)
      (copy_col_matrix_double training_data i) 0
  | l+1 => vectorized_sigma (copy_matrix_double
      (matrix_product_matrix_double (net.weights l) (bpActiv net training_data i l)))

/-- `zs[l][i]` of `network_backprop`: the weighted-input column of
layer `l` for training column `i` (`zs[0]` is the unused `0 × 0`
placeholder). -/
noncomputable def bpZ (net : network) (training_data : matrix_double) (i : ℕ) : ℕ → matrix_double
  | 0 => alloc_matrix_double 0 0
  | l+1 => matrix_product_matrix_double (net.weights l) (bpActiv net training_data i l)

/-- Everything `network_backprop` computes: the (unmodified) network,
the per-layer per-example weighted inputs and activations, and the
final value of the `costs` variable. -/
structure backprop_result where
  net : network
  zs : ℕ → ℕ → matrix_double
  activs : ℕ → ℕ → matrix_double
  costs : matrix_double

/-- `network_backprop` (src/neuron.c:215): for every training column it
computes the forward-pass trace and calls the `calculate_costs` stub;
no statement of the body writes to any weight or bias. -/
noncomputable def network_backprop (net : network) (training_data training_labels : matrix_double) : backprop_result :=
  { net := net
    zs := fun l i => bpZ net training_data i l
    activs := fun l i => bpActiv net training_data i l
    costs := calculate_costs training_labels
      (fun i => bpActiv net training_data i (net.n_layers - 1)) }

/-- The `for (j = 0; j < data_size; j += mini_batch_size)` mini-batch
loop of `network_SGD` (src/neuron.c:191-200): extract columns
`[j, min (j + mini_batch_size) data_size)` of both matrices and run
backpropagation. The C loop has no other exit: with
`mini_batch_size ≤ 0` and a nonempty corpus `j` never reaches
`data_size`, so no fuel suffices and the result is `none`
(nontermination). -/
noncomputable def sgdBatches (training_data training_labels : matrix_double) (mini_batch_size : ℤ) : network → ℤ → ℕ → Option network
  | _, _, 0 => none
  | net, j, fuel+1 =>
      if j < (training_data.ncols : ℤ) then
        sgdBatches training_data training_labels mini_batch_size
          (network_backprop net
            (extract_section_matrix_double training_data 0 j.toNat
              training_data.nrows (min (j + mini_batch_size) (training_data.ncols : ℤ)).toNat)
            (extract_section_matrix_double training_labels 0 j.toNat
              training_labels.nrows (min (j + mini_batch_size) (training_data.ncols : ℤ)).toNat)).net
          (j + mini_batch_size) fuel
      else some net

/-- The `for (i = 0; i < epochs; i++)` loop of `network_SGD`
(src/neuron.c:186-201): shuffle the corpus, then run the mini-batch
loop; the raw draw stream advances by the `ncols - 1` draws each
shuffle consumes. -/
noncomputable def sgdEpochs (mini_batch_size : ℤ) : (ℕ → ℕ) → network → matrix_double → matrix_double → ℕ → Option (network × matrix_double × matrix_double)
  | _, net, d, lb, 0 => some (net, d, lb)
  | r, net, d, lb, e+1 =>
      match sgdBatches (shuffle_data r d lb).1 (shuffle_data r d lb).2 mini_batch_size net 0 (d.ncols + 1) with
      | none => none
      | some net1 => sgdEpochs mini_batch_size (fun t => r (d.ncols - 1 + t)) net1
          (shuffle_data r d lb).1 (shuffle_data r d lb).2 e

/-- `network_SGD` (src/neuron.c:177): epochs of shuffle + mini-batch
backpropagation. `none` marks a mini-batch loop that never terminates. -/
noncomputable def network_SGD (r : ℕ → ℕ) (net : network) (training_data training_labels : matrix_double) (epochs : ℕ) (mini_batch_size : ℤ) (eta : ℝ) : Option (network × matrix_double × matrix_double) :=
  sgdEpochs mini_batch_size r net training_data training_labels epochs

/- ## Random initialization (src/neuron.c:52-64) -/

/-- Overwrite weight entry `(i, j)` of layer `l`. -/
def setWeight (net : network) (l i j : ℕ) (x : ℝ) : network :=
  { net with weights := fun l' =>
      if l' = l then setEntry (net.weights l) i j x else net.weights l' }

/-- The `for (k ...)` loop of `set_random_weights_biases`
(src/neuron.c:59-61): fill the incoming weights of neuron `j` of layer
`l+1`, threading the sampler seed. The sampler `g` models `gauss0` of
`random.h` (not in the sources) — modelled from the spec: `normal(seed)`
returns a deviate and the successor seed state. -/
def fillRowW (g : ℤ → ℝ × ℤ) (l j : ℕ) : network → ℕ → ℕ → ℤ → network × ℤ
  | net, _, 0, seed => (net, seed)
  | net, k, c+1, seed =>
      fillRowW g l j (setWeight net l j k (g seed).1) (k+1) c (g seed).2

/-- The `for (j ...)` loop of `set_random_weights_biases`
(src/neuron.c:57-62): per neuron, one draw for the bias then one per
incoming weight. -/
def fillNeurons (g : ℤ → ℝ × ℤ) (l : ℕ) : network → ℕ → ℕ → ℤ → network × ℤ
  | net, _, 0, seed => (net, seed)
  | net, j, c+1, seed =>
      fillNeurons g l
        (fillRowW g l j (setBias net l j (g seed).1) 0 (net.net_structure l) (g seed).2).1
        (j+1) c
        (fillRowW g l j (setBias net l j (g seed).1) 0 (net.net_structure l) (g seed).2).2

/-- The `for (i ...)` layer loop of `set_random_weights_biases`
(src/neuron.c:56-63). -/
def fillLayers (g : ℤ → ℝ × ℤ) : network → ℕ → ℕ → ℤ → network × ℤ
  | net, _, 0, seed => (net, seed)
  | net, l, c+1, seed =>
      fillLayers g
        (fillNeurons g l net 0 (net.net_structure (l+1)) seed).1
        (l+1) c
        (fillNeurons g l net 0 (net.net_structure (l+1)) seed).2

/-- `set_random_weights_biases` (src/neuron.c:52): seeds the sampler
with `time(NULL)` — the wall-clock value `timeNow` observed inside the
call, not a caller-supplied seed — and fills every bias and weight with
successive draws. -/
def set_random_weights_biases (g : ℤ → ℝ × ℤ) (timeNow : ℤ) (net : network) : network :=
  (fillLayers g net 0 (net.n_layers - 1) timeNow).1

/- ## Concrete instances used by witnesses and counterexamples -/

/-- The all-ones layer schedule. -/
def s11 : ℕ → ℕ := fun _ => 1

/-- A freshly constructed 2-layer network of schedule `[1, 1]`. -/
def net0 : network := create_network 2 s11

/-- A well-formed 2-layer `[1, 1]` network with weight 5 and bias 3. -/
def net1 : network :=
  { n_layers := 2
    net_structure := fun i => if i < 2 then 1 else 0
    weights := fun l => if l < 1 then ⟨1, 1, fun _ _ => 5⟩ else alloc_matrix_double 0 0
    biases := fun l => if l < 1 then ⟨1, 1, fun _ _ => 3⟩ else alloc_matrix_double 0 0 }

/-- A `1 × 1` zero matrix (a one-column training corpus). -/
def mat1 : matrix_double := ⟨1, 1, fun _ _ => 0⟩

/-- A constant-zero raw draw stream. -/
def r0 : ℕ → ℕ := fun _ => 0

/-- A concrete sampler satisfying the §6 contract shape: the deviate
depends on the seed state, and the seed advances. -/
def g0 : ℤ → ℝ × ℤ := fun s => (if s = 0 then 0 else 1, s + 1)

/- ## Theorems -/

/- ### Sigmoid range -/

theorem sigma_pos (x : ℝ) : 0 < sigma x := by
  unfold sigma
  have h := Real.exp_pos (-x)
  positivity

theorem sigma_lt_one (x : ℝ) : sigma x < 1 := by
  unfold sigma
  have h := Real.exp_pos (-x)
  rw [div_lt_one (by linarith)]
  linarith

/- ### Forward pass vs the spec recursion -/

theorem specActivation_zero (net : network) (input : ℕ → ℝ) :
    set_col_matrix_double (alloc_matrix_double (net.net_structure 0) 1) input 0 =
      specActivation net input 0 := rfl

theorem feedforward_loop_spec (net : network) (input : ℕ → ℝ) :
    ∀ steps l, feedforward_loop net (specActivation net input l) l steps =
      specActivation net input (l + steps) := by
  intro steps
  induction steps with
  | zero => intro l; rfl
  | succ s ih =>
      intro l
      show feedforward_loop net (specActivation net input (l+1)) (l+1) s =
        specActivation net input (l + (s+1))
      rw [show l + (s+1) = (l+1) + s by omega]
      exact ih (l+1)

theorem specActivation_ncols (net : network) (input : ℕ → ℝ) :
    ∀ l, (specActivation net input l).ncols = 1 := by
  intro l
  induction l with
  | zero => rfl
  | succ l ih =>
      show (matrix_product_matrix_double (net.weights l) (specActivation net input l)).ncols = 1
      exact ih

theorem specActivation_nrows (net : network) (input : ℕ → ℝ) (hwf : wellFormed net) :
    ∀ l, l ≤ net.n_layers - 1 → (specActivation net input l).nrows = net.net_structure l := by
  intro l hl
  cases l with
  | zero => rfl
  | succ l =>
      show (net.weights l).nrows = net.net_structure (l+1)
      exact (hwf.2 l (by omega)).1

/-- C1: for every network with `L ≥ 2` layers (with the §3 shape
invariant) and every input vector of length `layerSizes[0]`,
`feedforward` returns `a_{L-1}` where `a_0` is the input column and
`a_l = sigmoid(weights[l-1] · a_{l-1})` elementwise — the recursion of
`specActivation`, in which no bias vector is ever added. -/
theorem feedforward_matches_spec (net : network) (input : ℕ → ℝ) (hwf : wellFormed net) :
    ∀ k, k < net.net_structure (net.n_layers - 1) →
      feedforward net input k =
        (specActivation net input (net.n_layers - 1)).data k 0 := by
  intro k hk
  unfold feedforward
  rw [specActivation_zero, feedforward_loop_spec net input (net.n_layers - 1) 0]
  simp only [Nat.zero_add, copy_col_matrix_double]
  rw [specActivation_nrows net input hwf _ (le_refl _)]
  simp [hk]

theorem wellFormed_net1 : wellFormed net1 := by
  refine ⟨le_refl 2, ?_⟩
  intro l hl
  have hl0 : l = 0 := Nat.lt_one_iff.mp hl
  subst hl0
  exact ⟨rfl, rfl, rfl, rfl⟩

/-- Witness for C1 at the concrete `[1, 1]` network `net1`. -/
theorem feedforward_matches_spec_witness :
    wellFormed net1 ∧ 0 < net1.net_structure (net1.n_layers - 1) ∧
      feedforward net1 (fun _ => 0) 0 =
        (specActivation net1 (fun _ => 0) (net1.n_layers - 1)).data 0 0 :=
  ⟨wellFormed_net1, Nat.one_pos,
    feedforward_matches_spec net1 (fun _ => 0) wellFormed_net1 0 Nat.one_pos⟩

theorem specActivation_succ_entry (net : network) (input : ℕ → ℝ) (l k : ℕ)
    (hwf : wellFormed net) (hl : l + 1 ≤ net.n_layers - 1)
    (hk : k < net.net_structure (l+1)) :
    (specActivation net input (l+1)).data k 0 =
      sigma ((matrix_product_matrix_double (net.weights l)
        (specActivation net input l)).data k 0) := by
  show (vectorized_sigma _).data k 0 = _
  simp only [vectorized_sigma]
  rw [if_pos]
  refine ⟨?_, ?_⟩
  · show k < (net.weights l).nrows
    rw [(hwf.2 l (by omega)).1]
    exact hk
  · show 0 < (specActivation net input l).ncols
    rw [specActivation_ncols]
    exact Nat.one_pos

/-- C10: for every well-formed network and every input, every in-range
entry of the `feedforward` output lies in the open interval (0, 1):
the last operation applied to each output entry is
`sigma(x) = 1/(1+e^{-x})`. -/
theorem feedforward_output_in_unit_interval (net : network) (input : ℕ → ℝ)
    (hwf : wellFormed net) :
    ∀ k, k < net.net_structure (net.n_layers - 1) →
      0 < feedforward net input k ∧ feedforward net input k < 1 := by
  intro k hk
  have hff : feedforward net input k =
      (specActivation net input (net.n_layers - 1)).data k 0 := by
    unfold feedforward
    rw [specActivation_zero, feedforward_loop_spec net input (net.n_layers - 1) 0]
    simp only [Nat.zero_add, copy_col_matrix_double]
    rw [specActivation_nrows net input hwf _ (le_refl _)]
    simp [hk]
  have hL : 2 ≤ net.n_layers := hwf.1
  have hL1 : net.n_layers - 1 = (net.n_layers - 2) + 1 := by omega
  have hk2 : k < net.net_structure ((net.n_layers - 2) + 1) := by
    rw [← hL1]; exact hk
  rw [hff, hL1, specActivation_succ_entry net input _ k hwf (by omega) hk2]
  exact ⟨sigma_pos _, sigma_lt_one _⟩

/-- Witness for C10 at the concrete `[1, 1]` network `net1`. -/
theorem feedforward_output_in_unit_interval_witness :
    wellFormed net1 ∧ 0 < net1.net_structure (net1.n_layers - 1) ∧
      (0 < feedforward net1 (fun _ => 0) 0 ∧ feedforward net1 (fun _ => 0) 0 < 1) :=
  ⟨wellFormed_net1, Nat.one_pos,
    feedforward_output_in_unit_interval net1 (fun _ => 0) wellFormed_net1 0 Nat.one_pos⟩

/- ### Construction-time shapes -/

/-- C4: for every layer schedule of positive sizes with `L ≥ 2` layers,
`create_network` allocates, for every `l < L - 1`, a weight matrix of
shape `layerSizes[l+1] × layerSizes[l]` and a bias column of length
`layerSizes[l+1]`. -/
theorem create_network_shapes (n : ℕ) (s : ℕ → ℕ) (hn : 2 ≤ n)
    (hs : ∀ i, i < n → 0 < s i) :
    ∀ l, l < n - 1 →
      ((create_network n s).weights l).nrows = s (l+1) ∧
      ((create_network n s).weights l).ncols = s l ∧
      ((create_network n s).biases l).nrows = s (l+1) ∧
      ((create_network n s).biases l).ncols = 1 := by
  intro l hl
  simp [create_network, alloc_matrix_double, hl]

/-- Witness for C4 at schedule `[1, 1]`. -/
theorem create_network_shapes_witness :
    (2 ≤ 2 ∧ (∀ i, i < 2 → 0 < s11 i) ∧ 0 < 2 - 1) ∧
      ((create_network 2 s11).weights 0).nrows = s11 1 ∧
      ((create_network 2 s11).weights 0).ncols = s11 0 ∧
      ((create_network 2 s11).biases 0).nrows = s11 1 ∧
      ((create_network 2 s11).biases 0).ncols = 1 :=
  ⟨⟨le_refl 2, fun _ _ => Nat.one_pos, Nat.one_pos⟩,
    create_network_shapes 2 s11 (le_refl 2) (fun _ _ => Nat.one_pos) 0 Nat.one_pos⟩

/-- C7 (code evidence): `create_network` performs no validation at all —
called with a single layer, or with a zero layer size, it still returns
a (degenerate) network and reports no construction-time error; the C
function has `return net` as its only exit. -/
theorem create_network_no_validation :
    (create_network 1 (fun _ => 3)).n_layers = 1 ∧
    (create_network 2 (fun _ => 0)).n_layers = 2 ∧
    ((create_network 2 (fun _ => 0)).weights 0).nrows = 0 :=
  ⟨rfl, rfl, rfl⟩

/- ### Shuffling: one joint column permutation -/

theorem interchange_cols_data (m : matrix_double) (a b i j : ℕ) :
    (interchange_cols_matrix_double m a b).data i j = m.data i (Equiv.swap a b j) := by
  simp only [interchange_cols_matrix_double, Equiv.swap_apply_def]
  by_cases h1 : j = a
  · simp [h1]
  · by_cases h2 : j = b
    · by_cases h3 : b = a <;> simp [h1, h2, h3]
    · simp [h1, h2]

theorem shuffleLoop_perm (r : ℕ → ℕ) :
    ∀ i t (d lb : matrix_double), ∃ π : Equiv.Perm ℕ,
      (∀ k, k ≤ i → π k ≤ i) ∧ (∀ k, i < k → π k = k) ∧
      (shuffleLoop r t d lb i).1.nrows = d.nrows ∧
      (shuffleLoop r t d lb i).1.ncols = d.ncols ∧
      (shuffleLoop r t d lb i).2.nrows = lb.nrows ∧
      (shuffleLoop r t d lb i).2.ncols = lb.ncols ∧
      (∀ row k, (shuffleLoop r t d lb i).1.data row k = d.data row (π k)) ∧
      (∀ row k, (shuffleLoop r t d lb i).2.data row k = lb.data row (π k)) := by
  intro i
  induction i with
  | zero =>
      intro t d lb
      refine ⟨1, by simp, by simp, rfl, rfl, rfl, rfl,
        fun row k => by simp; rfl, fun row k => by simp; rfl⟩
  | succ i ih =>
      intro t d lb
      obtain ⟨π, hb, hfix, hdr, hdc, hlr, hlc, hd, hl⟩ :=
        ih (t+1) (interchange_cols_matrix_double d (i+1) (rand_lim r t (i+1)))
          (interchange_cols_matrix_double lb (i+1) (rand_lim r t (i+1)))
      have hjle : rand_lim r t (i+1) ≤ i + 1 := by
        have := Nat.mod_lt (r t) (show 0 < i + 1 + 1 by omega)
        unfold rand_lim
        omega
      have hstep : shuffleLoop r t d lb (i+1) =
          shuffleLoop r (t+1)
            (interchange_cols_matrix_double d (i+1) (rand_lim r t (i+1)))
            (interchange_cols_matrix_double lb (i+1) (rand_lim r t (i+1))) i := rfl
      refine ⟨π.trans (Equiv.swap (i+1) (rand_lim r t (i+1))), ?_, ?_, ?_, ?_, ?_, ?_, ?_, ?_⟩
      · intro k hk
        simp only [Equiv.trans_apply, Equiv.swap_apply_def]
        rcases Nat.lt_or_ge k (i+1) with hki | hki
        · have hπ : π k ≤ i := hb k (by omega)
          split
          · omega
          · split <;> omega
        · have hk1 : k = i + 1 := by omega
          have hπ : π k = k := hfix k (by omega)
          rw [hπ, hk1]
          simp
          omega
      · intro k hk
        simp only [Equiv.trans_apply, Equiv.swap_apply_def]
        have hπ : π k = k := hfix k (by omega)
        rw [hπ]
        have h1 : ¬ (k = i + 1) := by omega
        have h2 : ¬ (k = rand_lim r t (i+1)) := by omega
        simp [h1, h2]
      · rw [hstep]; exact hdr
      · rw [hstep]; exact hdc
      · rw [hstep]; exact hlr
      · rw [hstep]; exact hlc
      · intro row k
        rw [hstep, hd row k, interchange_cols_data]
        simp [Equiv.trans_apply]
      · intro row k
        rw [hstep, hl row k, interchange_cols_data]
        simp [Equiv.trans_apply]

/-- C5: `shuffle_data` applies one identical column permutation to both
matrices (a Fisher-Yates pass over the column count of the data matrix,
each draw in `[0, i]`): there is a single permutation `π`, mapping
in-range columns to in-range columns, such that after the call column
`k` of the data matrix is the former column `π k` and column `k` of the
label matrix is the former column `π k` of the labels — the (input,
label) pair formerly at `π k` sits jointly at `k`, with no
cross-pairing. -/
theorem shuffle_data_joint_permutation (r : ℕ → ℕ) (d lb : matrix_double)
    (hc : lb.ncols = d.ncols) (hpos : 0 < d.ncols) :
    ∃ π : Equiv.Perm ℕ,
      (∀ k, k < d.ncols → π k < d.ncols) ∧
      (shuffle_data r d lb).1.nrows = d.nrows ∧
      (shuffle_data r d lb).1.ncols = d.ncols ∧
      (shuffle_data r d lb).2.nrows = lb.nrows ∧
      (shuffle_data r d lb).2.ncols = lb.ncols ∧
      (∀ row k, (shuffle_data r d lb).1.data row k = d.data row (π k)) ∧
      (∀ row k, (shuffle_data r d lb).2.data row k = lb.data row (π k)) := by
  obtain ⟨π, hb, hfix, hdr, hdc, hlr, hlc, hd, hl⟩ :=
    shuffleLoop_perm r (d.ncols - 1) 0 d lb
  exact ⟨π, fun k hk => by have := hb k (by omega); omega,
    hdr, hdc, hlr, hlc, hd, hl⟩

/-- Witness for C5 on a pair of one-column matrices. -/
theorem shuffle_data_joint_permutation_witness :
    mat1.ncols = mat1.ncols ∧ 0 < mat1.ncols ∧
      (∃ π : Equiv.Perm ℕ,
        (∀ k, k < mat1.ncols → π k < mat1.ncols) ∧
        (shuffle_data r0 mat1 mat1).1.nrows = mat1.nrows ∧
        (shuffle_data r0 mat1 mat1).1.ncols = mat1.ncols ∧
        (shuffle_data r0 mat1 mat1).2.nrows = mat1.nrows ∧
        (shuffle_data r0 mat1 mat1).2.ncols = mat1.ncols ∧
        (∀ row k, (shuffle_data r0 mat1 mat1).1.data row k = mat1.data row (π k)) ∧
        (∀ row k, (shuffle_data r0 mat1 mat1).2.data row k = mat1.data row (π k))) :=
  ⟨rfl, Nat.one_pos, shuffle_data_joint_permutation r0 mat1 mat1 rfl Nat.one_pos⟩

/- ### Training performs no parameter update -/

theorem network_backprop_net_unchanged (net : network) (d lb : matrix_double) :
    (network_backprop net d lb).net = net := rfl

theorem sgdBatches_net_unchanged (d lb : matrix_double) (mbs : ℤ) :
    ∀ fuel (net : network) (j : ℤ) (net1 : network),
      sgdBatches d lb mbs net j fuel = some net1 → net1 = net := by
  intro fuel
  induction fuel with
  | zero =>
      intro net j net1 h
      exact absurd h (by simp [sgdBatches])
  | succ f ih =>
      intro net j net1 h
      simp only [sgdBatches] at h
      by_cases hj : j < (d.ncols : ℤ)
      · rw [if_pos hj] at h
        exact ih _ _ _ h
      · rw [if_neg hj] at h
        exact (Option.some.inj h).symm

theorem sgdEpochs_net_unchanged (mbs : ℤ) :
    ∀ (ep : ℕ) (r : ℕ → ℕ) (net : network) (d lb : matrix_double)
      (out : network × matrix_double × matrix_double),
      sgdEpochs mbs r net d lb ep = some out → out.1 = net := by
  intro ep
  induction ep with
  | zero =>
      intro r net d lb out h
      simp only [sgdEpochs] at h
      rw [← Option.some.inj h]
  | succ e ih =>
      intro r net d lb out h
      simp only [sgdEpochs] at h
      cases hm : sgdBatches (shuffle_data r d lb).1 (shuffle_data r d lb).2 mbs net 0 (d.ncols + 1) with
      | none => rw [hm] at h; exact absurd h (by simp)
      | some net1 =>
          rw [hm] at h
          rw [ih _ _ _ _ _ h]
          exact sgdBatches_net_unchanged _ _ _ _ _ _ _ hm

/-- C3: training is a no-op on the parameters. `network_backprop`
computes the forward-pass traces and the cost stub but returns the
network with every weight and bias entry untouched, and any completed
`network_SGD` run returns the network it was given. -/
theorem training_leaves_parameters_unchanged :
    (∀ (net : network) (d lb : matrix_double), (network_backprop net d lb).net = net) ∧
    (∀ (r : ℕ → ℕ) (net : network) (d lb : matrix_double) (epochs : ℕ)
       (mbs : ℤ) (eta : ℝ) (out : network × matrix_double × matrix_double),
       network_SGD r net d lb epochs mbs eta = some out → out.1 = net) :=
  ⟨fun net d lb => network_backprop_net_unchanged net d lb,
   fun r net d lb epochs mbs _ out h => sgdEpochs_net_unchanged mbs epochs r net d lb out h⟩

/-- Witness for C3: one epoch of SGD on a one-column corpus completes
and returns `net0` unchanged. -/
theorem training_leaves_parameters_unchanged_witness :
    network_SGD r0 net0 mat1 mat1 1 1 0 = some (net0, mat1, mat1) ∧
      ((net0, mat1, mat1) : network × matrix_double × matrix_double).1 = net0 := by
  have h : network_SGD r0 net0 mat1 mat1 1 1 0 = some (net0, mat1, mat1) := rfl
  exact ⟨h, training_leaves_parameters_unchanged.2 r0 net0 mat1 mat1 1 1 0 (net0, mat1, mat1) h⟩

/- ### The mini-batch loop with a non-positive batch size -/

theorem sgdBatches_nonpos_stuck (d lb : matrix_double) (mbs : ℤ) (hm : mbs ≤ 0) :
    ∀ fuel (net : network) (j : ℤ), j < (d.ncols : ℤ) →
      sgdBatches d lb mbs net j fuel = none := by
  intro fuel
  induction fuel with
  | zero => intro net j hj; rfl
  | succ f ih =>
      intro net j hj
      simp only [sgdBatches]
      rw [if_pos hj]
      exact ih _ _ (by omega)

/-- C6 (code evidence): called with `mini_batch_size = 0` on a
one-column corpus, the mini-batch loop of `network_SGD` neither rejects
nor clamps: `j += mini_batch_size` never advances, so the loop never
terminates — no amount of fuel completes it, and the epoch loop
diverges. -/
theorem sgd_zero_batch_size_never_terminates :
    (∀ fuel, sgdBatches mat1 mat1 0 net0 0 fuel = none) ∧
    network_SGD r0 net0 mat1 mat1 1 0 0 = none := by
  constructor
  · intro fuel
    exact sgdBatches_nonpos_stuck mat1 mat1 0 (le_refl 0) fuel net0 0 (by decide)
  · rfl

/- ### Persistence -/

/-- C8 (code evidence): `load_network` checks no `fread` result. Given
a stream that declares a 2-layer `[1, 1]` network but carries none of
the 2 parameter doubles it implies, it returns a (partial) network —
the layer header is honoured and every unread parameter keeps its
allocation-default value — and there is no error outcome at all, so
truncation is not distinguished from success (nor from I/O failure). -/
theorem load_network_accepts_truncated_stream :
    (load_network [Word.i 2, Word.i 1, Word.i 1]).n_layers = 2 ∧
    (load_network [Word.i 2, Word.i 1, Word.i 1]).net_structure 0 = 1 ∧
    (load_network [Word.i 2, Word.i 1, Word.i 1]).net_structure 1 = 1 ∧
    ((load_network [Word.i 2, Word.i 1, Word.i 1]).biases 0).data 0 0 = 0 ∧
    ((load_network [Word.i 2, Word.i 1, Word.i 1]).weights 0).data 0 0 = 0 :=
  ⟨rfl, rfl, rfl, rfl, rfl⟩

theorem readInts_map (zs : List ℤ) :
    ∀ rest, readInts zs.length (zs.map Word.i ++ rest) = (zs, rest) := by
  induction zs with
  | nil => intro rest; rfl
  | cons z zs ih =>
      intro rest
      simp only [List.length_cons, List.map_cons, List.cons_append, readInts, readInt]
      rw [ih]

theorem readDbls_map (xs : List ℝ) :
    ∀ rest, readDbls xs.length (xs.map Word.d ++ rest) = (xs, rest) := by
  induction xs with
  | nil => intro rest; rfl
  | cons x xs ih =>
      intro rest
      simp only [List.length_cons, List.map_cons, List.cons_append, readDbls, readDbl]
      rw [ih]

theorem getD_range_map {α : Type} (f : ℕ → α) (dflt : α) (n i : ℕ) (hi : i < n) :
    ((List.range n).map f).getD i dflt = f i := by
  rw [List.getD_eq_getElem _ _ (by simpa using hi)]
  simp

theorem loadNeurons_step (netA netB : network) (l i c : ℕ) (rest : List Word)
    (hs : netB.net_structure l = netA.net_structure l) :
    loadNeurons l netB i (c+1) (saveNeurons netA l i (c+1) ++ rest) =
      loadNeurons l
        (setWeightRow (setBias netB l i ((netA.biases l).data i 0)) l i
          ((List.range (netA.net_structure l)).map (fun j => (netA.weights l).data i j)))
        (i+1) c (saveNeurons netA l (i+1) c ++ rest) := by
  have h1 : saveNeurons netA l i (c+1) ++ rest =
      Word.d ((netA.biases l).data i 0) ::
        (((List.range (netA.net_structure l)).map (fun j => (netA.weights l).data i j)).map Word.d ++
          (saveNeurons netA l (i+1) c ++ rest)) := by
    show saveNeuronRow netA l i ++ saveNeurons netA l (i+1) c ++ rest = _
    simp [saveNeuronRow, List.map_map, Function.comp]
  rw [h1]
  have hlen : netB.net_structure l =
      ((List.range (netA.net_structure l)).map (fun j => (netA.weights l).data i j)).length := by
    simp [hs]
  simp only [loadNeurons, readDbl]
  rw [hlen, readDbls_map]

theorem loadNeurons_save (netA : network) (l : ℕ) :
    ∀ (c i : ℕ) (netB : network) (rest : List Word),
      netB.net_structure l = netA.net_structure l →
      (loadNeurons l netB i c (saveNeurons netA l i c ++ rest)).2 = rest ∧
      (loadNeurons l netB i c (saveNeurons netA l i c ++ rest)).1.n_layers = netB.n_layers ∧
      (loadNeurons l netB i c (saveNeurons netA l i c ++ rest)).1.net_structure = netB.net_structure ∧
      (∀ l', l' ≠ l → (loadNeurons l netB i c (saveNeurons netA l i c ++ rest)).1.weights l' = netB.weights l') ∧
      (∀ l', l' ≠ l → (loadNeurons l netB i c (saveNeurons netA l i c ++ rest)).1.biases l' = netB.biases l') ∧
      ((loadNeurons l netB i c (saveNeurons netA l i c ++ rest)).1.weights l).nrows = (netB.weights l).nrows ∧
      ((loadNeurons l netB i c (saveNeurons netA l i c ++ rest)).1.weights l).ncols = (netB.weights l).ncols ∧
      ((loadNeurons l netB i c (saveNeurons netA l i c ++ rest)).1.biases l).nrows = (netB.biases l).nrows ∧
      ((loadNeurons l netB i c (saveNeurons netA l i c ++ rest)).1.biases l).ncols = (netB.biases l).ncols ∧
      (∀ i' j', ((loadNeurons l netB i c (saveNeurons netA l i c ++ rest)).1.weights l).data i' j' =
        if i ≤ i' ∧ i' < i + c ∧ j' < netA.net_structure l then (netA.weights l).data i' j'
        else (netB.weights l).data i' j') ∧
      (∀ i' j', ((loadNeurons l netB i c (saveNeurons netA l i c ++ rest)).1.biases l).data i' j' =
        if i ≤ i' ∧ i' < i + c ∧ j' = 0 then (netA.biases l).data i' 0
        else (netB.biases l).data i' j') := by
  intro c
  induction c with
  | zero =>
      intro i netB rest _
      refine ⟨rfl, rfl, rfl, fun l' _ => rfl, fun l' _ => rfl, rfl, rfl, rfl, rfl, ?_, ?_⟩
      · intro i' j'; rw [if_neg (by omega)]; rfl
      · intro i' j'; rw [if_neg (by omega)]; rfl
  | succ c ih =>
      intro i netB rest hs
      rw [loadNeurons_step netA netB l i c rest hs]
      have hw2 : (setWeightRow (setBias netB l i ((netA.biases l).data i 0)) l i
          ((List.range (netA.net_structure l)).map (fun j => (netA.weights l).data i j))).weights l =
          setRow (netB.weights l) i
            ((List.range (netA.net_structure l)).map (fun j => (netA.weights l).data i j)) := by
        simp [setWeightRow, setBias]
      have hb2 : (setWeightRow (setBias netB l i ((netA.biases l).data i 0)) l i
          ((List.range (netA.net_structure l)).map (fun j => (netA.weights l).data i j))).biases l =
          setEntry (netB.biases l) i 0 ((netA.biases l).data i 0) := by
        simp [setWeightRow, setBias]
      have hwn : ∀ l', l' ≠ l → (setWeightRow (setBias netB l i ((netA.biases l).data i 0)) l i
          ((List.range (netA.net_structure l)).map (fun j => (netA.weights l).data i j))).weights l' =
          netB.weights l' := by
        intro l' hl'
        simp [setWeightRow, setBias, hl']
      have hbn : ∀ l', l' ≠ l → (setWeightRow (setBias netB l i ((netA.biases l).data i 0)) l i
          ((List.range (netA.net_structure l)).map (fun j => (netA.weights l).data i j))).biases l' =
          netB.biases l' := by
        intro l' hl'
        simp [setWeightRow, setBias, hl']
      obtain ⟨q1, q2, q3, q4, q5, q6, q7, q8, q9, q10, q11⟩ :=
        ih (i+1) (setWeightRow (setBias netB l i ((netA.biases l).data i 0)) l i
          ((List.range (netA.net_structure l)).map (fun j => (netA.weights l).data i j))) rest hs
      refine ⟨q1, q2, q3, ?_, ?_, ?_, ?_, ?_, ?_, ?_, ?_⟩
      · intro l' hl'; rw [q4 l' hl', hwn l' hl']
      · intro l' hl'; rw [q5 l' hl', hbn l' hl']
      · rw [q6, hw2]; rfl
      · rw [q7, hw2]; rfl
      · rw [q8, hb2]; rfl
      · rw [q9, hb2]; rfl
      · intro i' j'
        rw [q10 i' j', hw2]
        simp only [setRow, List.length_map, List.length_range]
        split_ifs with h1 h2 h3 h4 h5
        · rfl
        · omega
        · rcases h3 with ⟨hii, hjj⟩
          subst hii
          rw [getD_range_map _ _ _ _ hjj]
        · omega
        · exfalso
          rcases h5 with ⟨hc1, hc2, hc3⟩
          by_cases hii : i' = i
          · exact h3 ⟨hii, hc3⟩
          · exact h1 ⟨by omega, by omega, hc3⟩
        · rfl
      · intro i' j'
        rw [q11 i' j', hb2]
        simp only [setEntry]
        split_ifs with h1 h2 h3 h4 h5
        · rfl
        · omega
        · rcases h3 with ⟨hii, hjj⟩
          subst hii
          rfl
        · omega
        · exfalso
          rcases h5 with ⟨hc1, hc2, hc3⟩
          by_cases hii : i' = i
          · exact h3 ⟨hii, hc3⟩
          · exact h1 ⟨by omega, by omega, hc3⟩
        · rfl

theorem loadLayers_step (netA netB : network) (l c : ℕ) (rest : List Word)
    (hcount : netB.net_structure (l+1) = netA.net_structure (l+1)) :
    loadLayers netB l (c+1) (saveLayers netA l (c+1) ++ rest) =
      loadLayers
        (loadNeurons l netB 0 (netA.net_structure (l+1))
          (saveNeurons netA l 0 (netA.net_structure (l+1)) ++ (saveLayers netA (l+1) c ++ rest))).1
        (l+1) c
        (loadNeurons l netB 0 (netA.net_structure (l+1))
          (saveNeurons netA l 0 (netA.net_structure (l+1)) ++ (saveLayers netA (l+1) c ++ rest))).2 := by
  simp only [saveLayers, loadLayers, List.append_assoc, hcount]

theorem loadLayers_save (netA : network) :
    ∀ (c l : ℕ) (netB : network) (rest : List Word),
      (∀ idx, idx ≤ l + c → netB.net_structure idx = netA.net_structure idx) →
      (loadLayers netB l c (saveLayers netA l c ++ rest)).2 = rest ∧
      (loadLayers netB l c (saveLayers netA l c ++ rest)).1.n_layers = netB.n_layers ∧
      (loadLayers netB l c (saveLayers netA l c ++ rest)).1.net_structure = netB.net_structure ∧
      (∀ l', ((loadLayers netB l c (saveLayers netA l c ++ rest)).1.weights l').nrows = (netB.weights l').nrows) ∧
      (∀ l', ((loadLayers netB l c (saveLayers netA l c ++ rest)).1.weights l').ncols = (netB.weights l').ncols) ∧
      (∀ l', ((loadLayers netB l c (saveLayers netA l c ++ rest)).1.biases l').nrows = (netB.biases l').nrows) ∧
      (∀ l', ((loadLayers netB l c (saveLayers netA l c ++ rest)).1.biases l').ncols = (netB.biases l').ncols) ∧
      (∀ l' i' j', ((loadLayers netB l c (saveLayers netA l c ++ rest)).1.weights l').data i' j' =
        if l ≤ l' ∧ l' < l + c ∧ i' < netA.net_structure (l'+1) ∧ j' < netA.net_structure l' then
          (netA.weights l').data i' j' else (netB.weights l').data i' j') ∧
      (∀ l' i' j', ((loadLayers netB l c (saveLayers netA l c ++ rest)).1.biases l').data i' j' =
        if l ≤ l' ∧ l' < l + c ∧ i' < netA.net_structure (l'+1) ∧ j' = 0 then
          (netA.biases l').data i' 0 else (netB.biases l').data i' j') := by
  intro c
  induction c with
  | zero =>
      intro l netB rest _
      refine ⟨rfl, rfl, rfl, fun l' => rfl, fun l' => rfl, fun l' => rfl, fun l' => rfl, ?_, ?_⟩
      · intro l' i' j'; rw [if_neg (by omega)]; rfl
      · intro l' i' j'; rw [if_neg (by omega)]; rfl
  | succ c ih =>
      intro l netB rest h
      rw [loadLayers_step netA netB l c rest (h (l+1) (by omega))]
      obtain ⟨p1, p2, p3, p4, p5, p6, p7, p8, p9, p10, p11⟩ :=
        loadNeurons_save netA l (netA.net_structure (l+1)) 0 netB
          (saveLayers netA (l+1) c ++ rest) (h l (by omega))
      rw [p1]
      obtain ⟨q1, q2, q3, q4, q5, q6, q7, q8, q9⟩ :=
        ih (l+1)
          (loadNeurons l netB 0 (netA.net_structure (l+1))
            (saveNeurons netA l 0 (netA.net_structure (l+1)) ++ (saveLayers netA (l+1) c ++ rest))).1
          rest
          (by intro idx hidx
              rw [congrFun p3 idx]
              exact h idx (by omega))
      refine ⟨q1, ?_, ?_, ?_, ?_, ?_, ?_, ?_, ?_⟩
      · rw [q2, p2]
      · rw [q3, p3]
      · intro l'
        rw [q4 l']
        by_cases hl' : l' = l
        · subst hl'; exact p6
        · rw [p4 l' hl']
      · intro l'
        rw [q5 l']
        by_cases hl' : l' = l
        · subst hl'; exact p7
        · rw [p4 l' hl']
      · intro l'
        rw [q6 l']
        by_cases hl' : l' = l
        · subst hl'; exact p8
        · rw [p5 l' hl']
      · intro l'
        rw [q7 l']
        by_cases hl' : l' = l
        · subst hl'; exact p9
        · rw [p5 l' hl']
      · intro l' i' j'
        rw [q8 l' i' j']
        by_cases hl' : l' = l
        · subst hl'
          rw [if_neg (by omega), p10 i' j']
          split_ifs with ha hb
          · rfl
          · omega
          · omega
          · rfl
        · rw [p4 l' hl']
          split_ifs with ha hb
          · rfl
          · omega
          · omega
          · rfl
      · intro l' i' j'
        rw [q9 l' i' j']
        by_cases hl' : l' = l
        · subst hl'
          rw [if_neg (by omega), p11 i' j']
          split_ifs with ha hb
          · rfl
          · omega
          · omega
          · rfl
        · rw [p5 l' hl']
          split_ifs with ha hb
          · rfl
          · omega
          · omega
          · rfl

theorem readInts_range (f : ℕ → ℤ) (n : ℕ) (rest : List Word) :
    readInts n ((List.range n).map (fun idx => Word.i (f idx)) ++ rest) =
      ((List.range n).map f, rest) := by
  have h := readInts_map ((List.range n).map f) rest
  simpa [List.map_map, Function.comp] using h

theorem load_save_unfold (net : network) :
    load_network (save_network net) =
      (loadLayers
        (create_network net.n_layers
          (fun idx => ((((List.range net.n_layers).map
            (fun k => (net.net_structure k : ℤ))).getD idx 0).toNat)))
        0 (net.n_layers - 1) (saveLayers net 0 (net.n_layers - 1))).1 := by
  have h0 : save_network net = Word.i (net.n_layers : ℤ) ::
      ((List.range net.n_layers).map (fun idx => Word.i ((net.net_structure idx : ℤ))) ++
        saveLayers net 0 (net.n_layers - 1)) := rfl
  rw [h0]
  simp only [load_network, readInt, Int.toNat_natCast, readInts_range]

/-- C2: for every valid network (`L ≥ 2`, positive layer sizes,
shape-invariant weights and biases), `load_network` applied to the
stream written by `save_network` reconstructs a network observably
equal to the original: same layer count, same layer-size array, and
every weight and bias entry reproduced exactly. -/
theorem save_load_roundtrip (net : network) (hwf : wellFormed net)
    (hpos : ∀ i, i < net.n_layers → 0 < net.net_structure i) :
    netEq (load_network (save_network net)) net := by
  have hL : 2 ≤ net.n_layers := hwf.1
  have hsz : ∀ idx, idx < net.n_layers →
      ((((List.range net.n_layers).map (fun k => (net.net_structure k : ℤ))).getD idx 0).toNat) =
        net.net_structure idx := by
    intro idx hidx
    rw [getD_range_map _ _ _ _ hidx, Int.toNat_natCast]
  have hC : ∀ idx, idx < net.n_layers →
      (create_network net.n_layers
        (fun idx => ((((List.range net.n_layers).map
          (fun k => (net.net_structure k : ℤ))).getD idx 0).toNat))).net_structure idx =
        net.net_structure idx := by
    intro idx hidx
    show (if idx < net.n_layers then _ else 0) = _
    rw [if_pos hidx]
    exact hsz idx hidx
  rw [load_save_unfold net,
    ← List.append_nil (saveLayers net 0 (net.n_layers - 1))]
  obtain ⟨q1, q2, q3, q4, q5, q6, q7, q8, q9⟩ :=
    loadLayers_save net (net.n_layers - 1) 0
      (create_network net.n_layers
        (fun idx => ((((List.range net.n_layers).map
          (fun k => (net.net_structure k : ℤ))).getD idx 0).toNat)))
      []
      (by intro idx hidx; exact hC idx (by omega))
  have hwl : ∀ l, l < net.n_layers - 1 →
      ((create_network net.n_layers
        (fun idx => ((((List.range net.n_layers).map
          (fun k => (net.net_structure k : ℤ))).getD idx 0).toNat))).weights l).nrows =
        net.net_structure (l+1) ∧
      ((create_network net.n_layers
        (fun idx => ((((List.range net.n_layers).map
          (fun k => (net.net_structure k : ℤ))).getD idx 0).toNat))).weights l).ncols =
        net.net_structure l ∧
      ((create_network net.n_layers
        (fun idx => ((((List.range net.n_layers).map
          (fun k => (net.net_structure k : ℤ))).getD idx 0).toNat))).biases l).nrows =
        net.net_structure (l+1) ∧
      ((create_network net.n_layers
        (fun idx => ((((List.range net.n_layers).map
          (fun k => (net.net_structure k : ℤ))).getD idx 0).toNat))).biases l).ncols = 1 := by
    intro l hl
    refine ⟨?_, ?_, ?_, ?_⟩
    · show (if l < net.n_layers - 1 then _ else alloc_matrix_double 0 0).nrows = _
      rw [if_pos hl]
      exact hsz (l+1) (by omega)
    · show (if l < net.n_layers - 1 then _ else alloc_matrix_double 0 0).ncols = _
      rw [if_pos hl]
      exact hsz l (by omega)
    · show (if l < net.n_layers - 1 then _ else alloc_matrix_double 0 0).nrows = _
      rw [if_pos hl]
      exact hsz (l+1) (by omega)
    · show (if l < net.n_layers - 1 then _ else alloc_matrix_double 0 0).ncols = _
      rw [if_pos hl]
      rfl
  have hout : (loadLayers
      (create_network net.n_layers
        (fun idx => ((((List.range net.n_layers).map
          (fun k => (net.net_structure k : ℤ))).getD idx 0).toNat)))
      0 (net.n_layers - 1) (saveLayers net 0 (net.n_layers - 1) ++ [])).1.n_layers =
      net.n_layers := q2
  refine ⟨hout, ?_, ?_⟩
  · intro i hi
    rw [hout] at hi
    rw [congrFun q3 i]
    exact hC i hi
  · intro l hl
    rw [hout] at hl
    obtain ⟨w1, w2, w3, w4⟩ := hwl l hl
    obtain ⟨a1, a2, a3, a4⟩ := hwf.2 l hl
    have e1 : (_ : matrix_double).nrows = net.net_structure (l+1) := (q4 l).trans w1
    have e2 : (_ : matrix_double).ncols = net.net_structure l := (q5 l).trans w2
    have e3 : (_ : matrix_double).nrows = net.net_structure (l+1) := (q6 l).trans w3
    have e4 : (_ : matrix_double).ncols = 1 := (q7 l).trans w4
    refine ⟨e1.trans a1.symm, e2.trans a2.symm, e3.trans a3.symm, e4.trans a4.symm, ?_, ?_⟩
    · intro i j hi hj
      rw [e1] at hi
      rw [e2] at hj
      rw [q8 l i j, if_pos ⟨Nat.zero_le l, by omega, hi, hj⟩]
    · intro i hi
      rw [e3] at hi
      rw [q9 l i 0, if_pos ⟨Nat.zero_le l, by omega, hi, rfl⟩]

theorem wellFormed_net1_pos : ∀ i, i < net1.n_layers → 0 < net1.net_structure i := by
  intro i hi
  have h2 : i < 2 := hi
  show 0 < (if i < 2 then 1 else 0)
  rw [if_pos h2]
  exact Nat.one_pos

/-- Witness for C2 at the concrete valid network `net1`. -/
theorem save_load_roundtrip_witness :
    wellFormed net1 ∧ (∀ i, i < net1.n_layers → 0 < net1.net_structure i) ∧
      netEq (load_network (save_network net1)) net1 :=
  ⟨wellFormed_net1, wellFormed_net1_pos,
    save_load_roundtrip net1 wellFormed_net1 wellFormed_net1_pos⟩

/- ### Random initialization: determinism in the observed seed -/

theorem fillRowW_frame (g : ℤ → ℝ × ℤ) (l j : ℕ) :
    ∀ (c k : ℕ) (net : network) (seed : ℤ),
      (fillRowW g l j net k c seed).1.n_layers = net.n_layers ∧
      (fillRowW g l j net k c seed).1.net_structure = net.net_structure ∧
      (∀ l', (fillRowW g l j net k c seed).1.biases l' = net.biases l') ∧
      (∀ l', l' ≠ l → (fillRowW g l j net k c seed).1.weights l' = net.weights l') ∧
      ((fillRowW g l j net k c seed).1.weights l).nrows = (net.weights l).nrows ∧
      ((fillRowW g l j net k c seed).1.weights l).ncols = (net.weights l).ncols ∧
      (∀ i' j', ¬(i' = j ∧ k ≤ j' ∧ j' < k + c) →
        ((fillRowW g l j net k c seed).1.weights l).data i' j' = (net.weights l).data i' j') := by
  intro c
  induction c with
  | zero =>
      intro k net seed
      exact ⟨rfl, rfl, fun l' => rfl, fun l' _ => rfl, rfl, rfl, fun i' j' _ => rfl⟩
  | succ c ih =>
      intro k net seed
      have hstep : fillRowW g l j net k (c+1) seed =
          fillRowW g l j (setWeight net l j k (g seed).1) (k+1) c (g seed).2 := rfl
      rw [hstep]
      obtain ⟨a1, a2, a3, a4, a5, a6, a7⟩ := ih (k+1) (setWeight net l j k (g seed).1) (g seed).2
      refine ⟨a1, a2, ?_, ?_, ?_, ?_, ?_⟩
      · intro l'; exact a3 l'
      · intro l' hl'
        rw [a4 l' hl']
        simp [setWeight, hl']
      · rw [a5]; simp [setWeight, setEntry]
      · rw [a6]; simp [setWeight, setEntry]
      · intro i' j' hout
        have hout' : ¬(i' = j ∧ k + 1 ≤ j' ∧ j' < k + 1 + c) := by
          intro hcon
          exact hout ⟨hcon.1, by omega, by omega⟩
        rw [a7 i' j' hout']
        simp only [setWeight, setEntry]
        simp only [eq_self_iff_true, if_true]
        rw [if_neg]
        intro hcon
        exact hout ⟨hcon.1, by omega, by omega⟩

theorem fillRowW_pair (g : ℤ → ℝ × ℤ) (l j : ℕ) :
    ∀ (c k : ℕ) (net1 net2 : network) (seed : ℤ),
      (fillRowW g l j net1 k c seed).2 = (fillRowW g l j net2 k c seed).2 ∧
      (∀ i' j', i' = j → k ≤ j' → j' < k + c →
        ((fillRowW g l j net1 k c seed).1.weights l).data i' j' =
          ((fillRowW g l j net2 k c seed).1.weights l).data i' j') := by
  intro c
  induction c with
  | zero =>
      intro k net1 net2 seed
      exact ⟨rfl, fun i' j' _ h2 h3 => absurd h3 (by omega)⟩
  | succ c ih =>
      intro k net1 net2 seed
      have hstep1 : fillRowW g l j net1 k (c+1) seed =
          fillRowW g l j (setWeight net1 l j k (g seed).1) (k+1) c (g seed).2 := rfl
      have hstep2 : fillRowW g l j net2 k (c+1) seed =
          fillRowW g l j (setWeight net2 l j k (g seed).1) (k+1) c (g seed).2 := rfl
      rw [hstep1, hstep2]
      obtain ⟨a1, a2⟩ := ih (k+1) (setWeight net1 l j k (g seed).1)
        (setWeight net2 l j k (g seed).1) (g seed).2
      refine ⟨a1, ?_⟩
      intro i' j' hij hk1 hk2
      by_cases hj' : j' = k
      · have hout : ¬(i' = j ∧ k + 1 ≤ j' ∧ j' < k + 1 + c) := by
          intro hcon
          omega
        obtain ⟨_, _, _, _, _, _, f7⟩ := fillRowW_frame g l j c (k+1)
          (setWeight net1 l j k (g seed).1) (g seed).2
        obtain ⟨_, _, _, _, _, _, f7'⟩ := fillRowW_frame g l j c (k+1)
          (setWeight net2 l j k (g seed).1) (g seed).2
        rw [f7 i' j' hout, f7' i' j' hout]
        simp [setWeight, setEntry, hij, hj']
      · exact a2 i' j' hij (by omega) (by omega)

theorem fillNeurons_frame (g : ℤ → ℝ × ℤ) (l : ℕ) :
    ∀ (c j0 : ℕ) (net : network) (seed : ℤ),
      (fillNeurons g l net j0 c seed).1.n_layers = net.n_layers ∧
      (fillNeurons g l net j0 c seed).1.net_structure = net.net_structure ∧
      (∀ l', l' ≠ l → (fillNeurons g l net j0 c seed).1.weights l' = net.weights l') ∧
      (∀ l', l' ≠ l → (fillNeurons g l net j0 c seed).1.biases l' = net.biases l') ∧
      ((fillNeurons g l net j0 c seed).1.weights l).nrows = (net.weights l).nrows ∧
      ((fillNeurons g l net j0 c seed).1.weights l).ncols = (net.weights l).ncols ∧
      ((fillNeurons g l net j0 c seed).1.biases l).nrows = (net.biases l).nrows ∧
      ((fillNeurons g l net j0 c seed).1.biases l).ncols = (net.biases l).ncols ∧
      (∀ i' j', ¬(j0 ≤ i' ∧ i' < j0 + c ∧ j' < net.net_structure l) →
        ((fillNeurons g l net j0 c seed).1.weights l).data i' j' = (net.weights l).data i' j') ∧
      (∀ i' j', ¬(j0 ≤ i' ∧ i' < j0 + c ∧ j' = 0) →
        ((fillNeurons g l net j0 c seed).1.biases l).data i' j' = (net.biases l).data i' j') := by
  intro c
  induction c with
  | zero =>
      intro j0 net seed
      exact ⟨rfl, rfl, fun l' _ => rfl, fun l' _ => rfl, rfl, rfl, rfl, rfl,
        fun i' j' _ => rfl, fun i' j' _ => rfl⟩
  | succ c ih =>
      intro j0 net seed
      have hstep : fillNeurons g l net j0 (c+1) seed =
          fillNeurons g l
            (fillRowW g l j0 (setBias net l j0 (g seed).1) 0 (net.net_structure l) (g seed).2).1
            (j0+1) c
            (fillRowW g l j0 (setBias net l j0 (g seed).1) 0 (net.net_structure l) (g seed).2).2 := rfl
      rw [hstep]
      obtain ⟨f1, f2, f3, f4, f5, f6, f7⟩ := fillRowW_frame g l j0 (net.net_structure l) 0
        (setBias net l j0 (g seed).1) (g seed).2
      obtain ⟨n1, n2, n3, n4, n5, n6, n7, n8, n9, n10⟩ := ih (j0+1)
        (fillRowW g l j0 (setBias net l j0 (g seed).1) 0 (net.net_structure l) (g seed).2).1
        (fillRowW g l j0 (setBias net l j0 (g seed).1) 0 (net.net_structure l) (g seed).2).2
      have hbl : (setBias net l j0 (g seed).1).biases l = setEntry (net.biases l) j0 0 (g seed).1 := by
        simp [setBias]
      have hbn : ∀ l', l' ≠ l → (setBias net l j0 (g seed).1).biases l' = net.biases l' := by
        intro l' hl'
        simp [setBias, hl']
      have hstructf : (fillRowW g l j0 (setBias net l j0 (g seed).1) 0
          (net.net_structure l) (g seed).2).1.net_structure = net.net_structure := f2
      refine ⟨?_, ?_, ?_, ?_, ?_, ?_, ?_, ?_, ?_, ?_⟩
      · rw [n1, f1]; rfl
      · rw [n2, f2]; rfl
      · intro l' hl'
        rw [n3 l' hl', f4 l' hl']
        rfl
      · intro l' hl'
        rw [n4 l' hl', f3 l', hbn l' hl']
      · rw [n5, f5]; rfl
      · rw [n6, f6]; rfl
      · rw [n7, f3 l, hbl]
        rfl
      · rw [n8, f3 l, hbl]
        rfl
      · intro i' j' hout
        have hout1 : ¬(j0 + 1 ≤ i' ∧ i' < j0 + 1 + c ∧
            j' < (fillRowW g l j0 (setBias net l j0 (g seed).1) 0
              (net.net_structure l) (g seed).2).1.net_structure l) := by
          rw [congrFun hstructf l]
          intro hcon
          exact hout ⟨by omega, by omega, hcon.2.2⟩
        rw [n9 i' j' hout1]
        have hout2 : ¬(i' = j0 ∧ 0 ≤ j' ∧ j' < 0 + net.net_structure l) := by
          intro hcon
          exact hout ⟨by omega, by omega, by omega⟩
        rw [f7 i' j' hout2]
        rfl
      · intro i' j' hout
        have hout1 : ¬(j0 + 1 ≤ i' ∧ i' < j0 + 1 + c ∧ j' = 0) := by
          intro hcon
          exact hout ⟨by omega, by omega, hcon.2.2⟩
        rw [n10 i' j' hout1, f3 l, hbl]
        simp only [setEntry]
        rw [if_neg]
        intro hcon
        exact hout ⟨by omega, by omega, hcon.2⟩

theorem fillNeurons_pair (g : ℤ → ℝ × ℤ) (l : ℕ) :
    ∀ (c j0 : ℕ) (net1 net2 : network) (seed : ℤ),
      net1.net_structure l = net2.net_structure l →
      (fillNeurons g l net1 j0 c seed).2 = (fillNeurons g l net2 j0 c seed).2 ∧
      (∀ i' j', j0 ≤ i' → i' < j0 + c → j' < net1.net_structure l →
        ((fillNeurons g l net1 j0 c seed).1.weights l).data i' j' =
          ((fillNeurons g l net2 j0 c seed).1.weights l).data i' j') ∧
      (∀ i', j0 ≤ i' → i' < j0 + c →
        ((fillNeurons g l net1 j0 c seed).1.biases l).data i' 0 =
          ((fillNeurons g l net2 j0 c seed).1.biases l).data i' 0) := by
  intro c
  induction c with
  | zero =>
      intro j0 net1 net2 seed _
      exact ⟨rfl, fun i' j' h1 h2 _ => absurd h2 (by omega),
        fun i' h1 h2 => absurd h2 (by omega)⟩
  | succ c ih =>
      intro j0 net1 net2 seed hst
      have hstep1 : fillNeurons g l net1 j0 (c+1) seed =
          fillNeurons g l
            (fillRowW g l j0 (setBias net1 l j0 (g seed).1) 0 (net1.net_structure l) (g seed).2).1
            (j0+1) c
            (fillRowW g l j0 (setBias net1 l j0 (g seed).1) 0 (net1.net_structure l) (g seed).2).2 := rfl
      have hstep2 : fillNeurons g l net2 j0 (c+1) seed =
          fillNeurons g l
            (fillRowW g l j0 (setBias net2 l j0 (g seed).1) 0 (net2.net_structure l) (g seed).2).1
            (j0+1) c
            (fillRowW g l j0 (setBias net2 l j0 (g seed).1) 0 (net2.net_structure l) (g seed).2).2 := rfl
      rw [hstep1, hstep2, ← hst]
      have hseedeq : (fillRowW g l j0 (setBias net1 l j0 (g seed).1) 0
            (net1.net_structure l) (g seed).2).2 =
          (fillRowW g l j0 (setBias net2 l j0 (g seed).1) 0
            (net1.net_structure l) (g seed).2).2 :=
        (fillRowW_pair g l j0 (net1.net_structure l) 0 (setBias net1 l j0 (g seed).1)
          (setBias net2 l j0 (g seed).1) (g seed).2).1
      rw [← hseedeq]
      have hsr1 : (fillRowW g l j0 (setBias net1 l j0 (g seed).1) 0
          (net1.net_structure l) (g seed).2).1.net_structure = net1.net_structure :=
        (fillRowW_frame g l j0 (net1.net_structure l) 0
          (setBias net1 l j0 (g seed).1) (g seed).2).2.1
      have hsr2 : (fillRowW g l j0 (setBias net2 l j0 (g seed).1) 0
          (net1.net_structure l) (g seed).2).1.net_structure = net2.net_structure :=
        (fillRowW_frame g l j0 (net1.net_structure l) 0
          (setBias net2 l j0 (g seed).1) (g seed).2).2.1
      obtain ⟨p1, p2, p3⟩ := ih (j0+1)
        (fillRowW g l j0 (setBias net1 l j0 (g seed).1) 0 (net1.net_structure l) (g seed).2).1
        (fillRowW g l j0 (setBias net2 l j0 (g seed).1) 0 (net1.net_structure l) (g seed).2).1
        (fillRowW g l j0 (setBias net1 l j0 (g seed).1) 0 (net1.net_structure l) (g seed).2).2
        (by rw [hsr1, hsr2]; exact hst)
      refine ⟨p1, ?_, ?_⟩
      · intro i' j' h1 h2 h3
        by_cases hi : i' = j0
        · obtain ⟨_, _, _, _, _, _, _, _, w9, _⟩ := fillNeurons_frame g l c (j0+1)
            (fillRowW g l j0 (setBias net1 l j0 (g seed).1) 0 (net1.net_structure l) (g seed).2).1
            (fillRowW g l j0 (setBias net1 l j0 (g seed).1) 0 (net1.net_structure l) (g seed).2).2
          obtain ⟨_, _, _, _, _, _, _, _, w9', _⟩ := fillNeurons_frame g l c (j0+1)
            (fillRowW g l j0 (setBias net2 l j0 (g seed).1) 0 (net1.net_structure l) (g seed).2).1
            (fillRowW g l j0 (setBias net1 l j0 (g seed).1) 0 (net1.net_structure l) (g seed).2).2
          rw [w9 i' j' (by intro hcon; omega), w9' i' j' (by intro hcon; omega)]
          exact (fillRowW_pair g l j0 (net1.net_structure l) 0 (setBias net1 l j0 (g seed).1)
            (setBias net2 l j0 (g seed).1) (g seed).2).2 i' j' hi (Nat.zero_le j') (by omega)
        · exact p2 i' j' (by omega) (by omega) (by rw [hsr1]; exact h3)
      · intro i' h1 h2
        by_cases hi : i' = j0
        · obtain ⟨_, _, _, _, _, _, _, _, _, b10⟩ := fillNeurons_frame g l c (j0+1)
            (fillRowW g l j0 (setBias net1 l j0 (g seed).1) 0 (net1.net_structure l) (g seed).2).1
            (fillRowW g l j0 (setBias net1 l j0 (g seed).1) 0 (net1.net_structure l) (g seed).2).2
          obtain ⟨_, _, _, _, _, _, _, _, _, b10'⟩ := fillNeurons_frame g l c (j0+1)
            (fillRowW g l j0 (setBias net2 l j0 (g seed).1) 0 (net1.net_structure l) (g seed).2).1
            (fillRowW g l j0 (setBias net1 l j0 (g seed).1) 0 (net1.net_structure l) (g seed).2).2
          rw [b10 i' 0 (by intro hcon; omega), b10' i' 0 (by intro hcon; omega)]
          have hb1 : (fillRowW g l j0 (setBias net1 l j0 (g seed).1) 0
              (net1.net_structure l) (g seed).2).1.biases l =
              (setBias net1 l j0 (g seed).1).biases l :=
            (fillRowW_frame g l j0 (net1.net_structure l) 0
              (setBias net1 l j0 (g seed).1) (g seed).2).2.2.1 l
          have hb2 : (fillRowW g l j0 (setBias net2 l j0 (g seed).1) 0
              (net1.net_structure l) (g seed).2).1.biases l =
              (setBias net2 l j0 (g seed).1).biases l :=
            (fillRowW_frame g l j0 (net1.net_structure l) 0
              (setBias net2 l j0 (g seed).1) (g seed).2).2.2.1 l
          rw [hb1, hb2]
          simp [setBias, setEntry, hi]
        · exact p3 i' (by omega) (by omega)

theorem fillLayers_frame (g : ℤ → ℝ × ℤ) :
    ∀ (c l0 : ℕ) (net : network) (seed : ℤ),
      (fillLayers g net l0 c seed).1.n_layers = net.n_layers ∧
      (fillLayers g net l0 c seed).1.net_structure = net.net_structure ∧
      (∀ l', ¬(l0 ≤ l' ∧ l' < l0 + c) →
        (fillLayers g net l0 c seed).1.weights l' = net.weights l' ∧
        (fillLayers g net l0 c seed).1.biases l' = net.biases l') ∧
      (∀ l',
        ((fillLayers g net l0 c seed).1.weights l').nrows = (net.weights l').nrows ∧
        ((fillLayers g net l0 c seed).1.weights l').ncols = (net.weights l').ncols ∧
        ((fillLayers g net l0 c seed).1.biases l').nrows = (net.biases l').nrows ∧
        ((fillLayers g net l0 c seed).1.biases l').ncols = (net.biases l').ncols) := by
  intro c
  induction c with
  | zero =>
      intro l0 net seed
      exact ⟨rfl, rfl, fun l' _ => ⟨rfl, rfl⟩, fun l' => ⟨rfl, rfl, rfl, rfl⟩⟩
  | succ c ih =>
      intro l0 net seed
      have hstep : fillLayers g net l0 (c+1) seed =
          fillLayers g (fillNeurons g l0 net 0 (net.net_structure (l0+1)) seed).1 (l0+1) c
            (fillNeurons g l0 net 0 (net.net_structure (l0+1)) seed).2 := rfl
      rw [hstep]
      obtain ⟨n1, n2, n3, n4, n5, n6, n7, n8, n9, n10⟩ :=
        fillNeurons_frame g l0 (net.net_structure (l0+1)) 0 net seed
      obtain ⟨m1, m2, m3, m4⟩ := ih (l0+1)
        (fillNeurons g l0 net 0 (net.net_structure (l0+1)) seed).1
        (fillNeurons g l0 net 0 (net.net_structure (l0+1)) seed).2
      refine ⟨m1.trans n1, m2.trans n2, ?_, ?_⟩
      · intro l' hout
        have hout1 : ¬(l0 + 1 ≤ l' ∧ l' < l0 + 1 + c) := by
          intro hcon
          exact hout ⟨by omega, by omega⟩
        have hne : l' ≠ l0 := by
          intro hcon
          exact hout ⟨by omega, by omega⟩
        obtain ⟨mw, mb⟩ := m3 l' hout1
        exact ⟨mw.trans (n3 l' hne), mb.trans (n4 l' hne)⟩
      · intro l'
        obtain ⟨d1, d2, d3, d4⟩ := m4 l'
        by_cases hl' : l' = l0
        · subst hl'
          exact ⟨d1.trans n5, d2.trans n6, d3.trans n7, d4.trans n8⟩
        · exact ⟨d1.trans (congrArg matrix_double.nrows (n3 l' hl')),
            d2.trans (congrArg matrix_double.ncols (n3 l' hl')),
            d3.trans (congrArg matrix_double.nrows (n4 l' hl')),
            d4.trans (congrArg matrix_double.ncols (n4 l' hl'))⟩

theorem fillLayers_pair (g : ℤ → ℝ × ℤ) :
    ∀ (c l0 : ℕ) (net1 net2 : network) (seed : ℤ),
      net1.net_structure = net2.net_structure →
      (fillLayers g net1 l0 c seed).2 = (fillLayers g net2 l0 c seed).2 ∧
      (∀ l' i' j', l0 ≤ l' → l' < l0 + c → i' < net1.net_structure (l'+1) →
        j' < net1.net_structure l' →
        ((fillLayers g net1 l0 c seed).1.weights l').data i' j' =
          ((fillLayers g net2 l0 c seed).1.weights l').data i' j') ∧
      (∀ l' i', l0 ≤ l' → l' < l0 + c → i' < net1.net_structure (l'+1) →
        ((fillLayers g net1 l0 c seed).1.biases l').data i' 0 =
          ((fillLayers g net2 l0 c seed).1.biases l').data i' 0) := by
  intro c
  induction c with
  | zero =>
      intro l0 net1 net2 seed _
      exact ⟨rfl, fun l' i' j' h1 h2 _ _ => absurd h2 (by omega),
        fun l' i' h1 h2 _ => absurd h2 (by omega)⟩
  | succ c ih =>
      intro l0 net1 net2 seed hst
      have hstep1 : fillLayers g net1 l0 (c+1) seed =
          fillLayers g (fillNeurons g l0 net1 0 (net1.net_structure (l0+1)) seed).1 (l0+1) c
            (fillNeurons g l0 net1 0 (net1.net_structure (l0+1)) seed).2 := rfl
      have hstep2 : fillLayers g net2 l0 (c+1) seed =
          fillLayers g (fillNeurons g l0 net2 0 (net2.net_structure (l0+1)) seed).1 (l0+1) c
            (fillNeurons g l0 net2 0 (net2.net_structure (l0+1)) seed).2 := rfl
      rw [hstep1, hstep2, ← hst]
      have hseedeq : (fillNeurons g l0 net1 0 (net1.net_structure (l0+1)) seed).2 =
          (fillNeurons g l0 net2 0 (net1.net_structure (l0+1)) seed).2 :=
        (fillNeurons_pair g l0 (net1.net_structure (l0+1)) 0 net1 net2 seed
          (congrFun hst l0)).1
      rw [← hseedeq]
      have hsr1 : (fillNeurons g l0 net1 0 (net1.net_structure (l0+1)) seed).1.net_structure =
          net1.net_structure :=
        (fillNeurons_frame g l0 (net1.net_structure (l0+1)) 0 net1 seed).2.1
      have hsr2 : (fillNeurons g l0 net2 0 (net1.net_structure (l0+1)) seed).1.net_structure =
          net2.net_structure :=
        (fillNeurons_frame g l0 (net1.net_structure (l0+1)) 0 net2 seed).2.1
      obtain ⟨p1, p2, p3⟩ := ih (l0+1)
        (fillNeurons g l0 net1 0 (net1.net_structure (l0+1)) seed).1
        (fillNeurons g l0 net2 0 (net1.net_structure (l0+1)) seed).1
        (fillNeurons g l0 net1 0 (net1.net_structure (l0+1)) seed).2
        (by rw [hsr1, hsr2]; exact hst)
      refine ⟨p1, ?_, ?_⟩
      · intro l' i' j' h1 h2 h3 h4
        by_cases hl0 : l' = l0
        · subst hl0
          obtain ⟨_, _, f3, _⟩ := fillLayers_frame g c (l'+1)
            (fillNeurons g l' net1 0 (net1.net_structure (l'+1)) seed).1
            (fillNeurons g l' net1 0 (net1.net_structure (l'+1)) seed).2
          obtain ⟨_, _, f3', _⟩ := fillLayers_frame g c (l'+1)
            (fillNeurons g l' net2 0 (net1.net_structure (l'+1)) seed).1
            (fillNeurons g l' net1 0 (net1.net_structure (l'+1)) seed).2
          rw [(f3 l' (by intro hcon; omega)).1, (f3' l' (by intro hcon; omega)).1]
          exact (fillNeurons_pair g l' (net1.net_structure (l'+1)) 0 net1 net2 seed
            (congrFun hst l')).2.1 i' j' (Nat.zero_le i') (by omega) h4
        · exact p2 l' i' j' (by omega) (by omega)
            (by rw [hsr1]; exact h3) (by rw [hsr1]; exact h4)
      · intro l' i' h1 h2 h3
        by_cases hl0 : l' = l0
        · subst hl0
          obtain ⟨_, _, f3, _⟩ := fillLayers_frame g c (l'+1)
            (fillNeurons g l' net1 0 (net1.net_structure (l'+1)) seed).1
            (fillNeurons g l' net1 0 (net1.net_structure (l'+1)) seed).2
          obtain ⟨_, _, f3', _⟩ := fillLayers_frame g c (l'+1)
            (fillNeurons g l' net2 0 (net1.net_structure (l'+1)) seed).1
            (fillNeurons g l' net1 0 (net1.net_structure (l'+1)) seed).2
          rw [(f3 l' (by intro hcon; omega)).2, (f3' l' (by intro hcon; omega)).2]
          exact (fillNeurons_pair g l' (net1.net_structure (l'+1)) 0 net1 net2 seed
            (congrFun hst l')).2.2 i' (Nat.zero_le i') (by omega)
        · exact p3 l' i' (by omega) (by omega) (by rw [hsr1]; exact h3)

/-- C9 (amended): the parameter values produced by
`set_random_weights_biases` are a deterministic function of the sampler
and of the wall-clock value `time(NULL)` observed inside the call: two
calls that observe the same time value, on well-formed networks of
identical layer schedule, fill every weight and bias entry identically.
(The seed is not caller-supplied: the source reads the clock itself.) -/
theorem set_random_deterministic_in_time (g : ℤ → ℝ × ℤ) (t : ℤ) (netA netB : network)
    (hwfA : wellFormed netA) (hwfB : wellFormed netB)
    (hn : netA.n_layers = netB.n_layers)
    (hst : netA.net_structure = netB.net_structure) :
    netEq (set_random_weights_biases g t netA) (set_random_weights_biases g t netB) := by
  unfold set_random_weights_biases
  rw [← hn]
  obtain ⟨a1, a2, a3, a4⟩ := fillLayers_frame g (netA.n_layers - 1) 0 netA t
  obtain ⟨b1, b2, b3, b4⟩ := fillLayers_frame g (netA.n_layers - 1) 0 netB t
  obtain ⟨p1, p2, p3⟩ := fillLayers_pair g (netA.n_layers - 1) 0 netA netB t hst
  refine ⟨a1.trans (hn.trans b1.symm), ?_, ?_⟩
  · intro i hi
    rw [a2, b2, congrFun hst i]
  · intro l hl
    rw [a1] at hl
    obtain ⟨da1, da2, da3, da4⟩ := a4 l
    obtain ⟨db1, db2, db3, db4⟩ := b4 l
    obtain ⟨wa1, wa2, wa3, wa4⟩ := hwfA.2 l hl
    obtain ⟨wb1, wb2, wb3, wb4⟩ := hwfB.2 l (by omega)
    have hsl : netA.net_structure l = netB.net_structure l := congrFun hst l
    have hsl1 : netA.net_structure (l+1) = netB.net_structure (l+1) := congrFun hst (l+1)
    refine ⟨?_, ?_, ?_, ?_, ?_, ?_⟩
    · rw [da1, db1, wa1, wb1, hsl1]
    · rw [da2, db2, wa2, wb2, hsl]
    · rw [da3, db3, wa3, wb3, hsl1]
    · rw [da4, db4, wa4, wb4]
    · intro i j hi hj
      rw [da1, wa1] at hi
      rw [da2, wa2] at hj
      exact p2 l i j (Nat.zero_le l) (by omega) hi hj
    · intro i hi
      rw [da3, wa3] at hi
      exact p3 l i (Nat.zero_le l) (by omega) hi

/-- C9 (counterexample to the claim as stated): the seed is drawn from
the wall clock inside `set_random_weights_biases`, not supplied by the
caller. With the sampler `g0` and the same caller-visible arguments
(`net0` twice), two calls observing different clock values produce
observably different parameters, so the fill is not a function of any
caller-owned seed state. -/
theorem set_random_seed_not_caller_owned :
    ¬ netEq (set_random_weights_biases g0 0 net0) (set_random_weights_biases g0 1 net0) := by
  intro h
  have hb0 : ((set_random_weights_biases g0 0 net0).biases 0).data 0 0 = 0 := rfl
  have hb1 : ((set_random_weights_biases g0 1 net0).biases 0).data 0 0 = 1 := rfl
  have hL : (set_random_weights_biases g0 0 net0).n_layers = 2 := rfl
  have hr : ((set_random_weights_biases g0 0 net0).biases 0).nrows = 1 := rfl
  have hcontr := (h.2.2 0 (by rw [hL]; norm_num)).2.2.2.2.2 0 (by rw [hr]; norm_num)
  rw [hb0, hb1] at hcontr
  norm_num at hcontr

theorem wellFormed_net1b : wellFormed (setBias net1 0 0 5) := by
  refine ⟨le_refl 2, ?_⟩
  intro l hl
  have hl0 : l = 0 := Nat.lt_one_iff.mp hl
  subst hl0
  exact ⟨rfl, rfl, rfl, rfl⟩

/-- Witness for the amended C9: two distinct same-shaped networks,
filled at the same observed time, end up observably equal. -/
theorem set_random_deterministic_in_time_witness :
    (wellFormed net1 ∧ wellFormed (setBias net1 0 0 5) ∧
      net1.n_layers = (setBias net1 0 0 5).n_layers ∧
      net1.net_structure = (setBias net1 0 0 5).net_structure) ∧
    netEq (set_random_weights_biases g0 0 net1)
      (set_random_weights_biases g0 0 (setBias net1 0 0 5)) :=
  ⟨⟨wellFormed_net1, wellFormed_net1b, rfl, rfl⟩,
    set_random_deterministic_in_time g0 0 net1 (setBias net1 0 0 5)
      wellFormed_net1 wellFormed_net1b rfl rfl⟩
